import Mathlib

/-!
# Verification of `src/conf.cpp` (prediction-confidence)

Shallow embedding of the numeric core of `conf.cpp` over `ℚ`.

Floating-point idealization: the C++ code computes with 32-bit `float`;
here every float value is modelled as an exact rational, and every decimal
literal of the source (`0.043`, `1e-6`, `2.718281828459045`, …) is read as
the exact rational it denotes.  All arithmetic (`+`, `*`, `/`, comparisons,
truncation to `int`) is the exact rational counterpart of the float
operation the source performs.

The two `while` loops of the source are embedded as fuel-indexed structural
recursions; separate `Option`-valued variants (returning `none` on fuel
exhaustion) let us state and prove that the loops terminate by their own
exit conditions, so the fuel bound is immaterial.
-/

set_option maxRecDepth 40000

namespace NormalProbabilityDensity

/-- Loop of `static_int_pow` (exponentiation by squaring):
`while (n > 0) { if (n & 1) p *= x; x *= x; n >>= 1; }`.
State `(x, p, n)`; the fuel argument only bounds the iteration count,
`static_int_pow` supplies enough of it (see `ipowGo_eq_pow`). -/
def ipowGo : ℕ → ℚ → ℚ → ℕ → ℚ
  | 0, _, p, _ => p
  | fuel+1, x, p, n =>
      if n = 0 then p
      else ipowGo fuel (x * x) (if n % 2 = 1 then p * x else p) (n / 2)

/-- `Option`-valued variant of `ipowGo`: `none` iff the fuel runs out before
the loop condition `n > 0` fails. -/
def ipowGoO : ℕ → ℚ → ℚ → ℕ → Option ℚ
  | 0, _, _, _ => none
  | fuel+1, x, p, n =>
      if n = 0 then some p
      else ipowGoO fuel (x * x) (if n % 2 = 1 then p * x else p) (n / 2)

/-- `static_int_pow(x, n)`: `x` to the power `n` by squaring.  The source
passes a non-negative `int`; we take `n : ℕ`.  Fuel `n + 1` is enough since
`n` at least halves each iteration. -/
def static_int_pow (x : ℚ) (n : ℕ) : ℚ := ipowGo (n + 1) x 1 n

/-- Taylor-series loop of `static_exp`:
`while (term > kAccuracy) { sum += term; term *= x / i; ++i; }`
with `kAccuracy = 1e-6`.  State `(x, sum, term, i)`. -/
def expSeriesGo : ℕ → ℚ → ℚ → ℚ → ℕ → ℚ
  | 0, _, sum, _, _ => sum
  | fuel+1, x, sum, term, i =>
      if 1/1000000 < term then expSeriesGo fuel x (sum + term) (term * (x / i)) (i + 1)
      else sum

/-- `Option`-valued variant of `expSeriesGo`: `none` iff the fuel runs out
before the loop condition `term > 1e-6` fails. -/
def expSeriesGoO : ℕ → ℚ → ℚ → ℚ → ℕ → Option ℚ
  | 0, _, _, _, _ => none
  | fuel+1, x, sum, term, i =>
      if 1/1000000 < term then expSeriesGoO fuel x (sum + term) (term * (x / i)) (i + 1)
      else some sum

/-- The float literal `e = 2.718281828459045` of the source, as the exact
rational it denotes. -/
def eLit : ℚ := 2718281828459045 / 10 ^ 15

/-- The local `x` of `static_exp` after `x = x < 0 ? -x : x`: the absolute
value of the input. -/
def absInput (x : ℚ) : ℚ := if x < 0 then -x else x

/-- The local `integer_part = static_cast<int>(x)` of `static_exp`: the
truncation of the non-negative `absInput`, i.e. its floor. -/
def integer_part (x : ℚ) : ℕ := (⌊absInput x⌋).toNat

/-- The local `x` of `static_exp` after `x -= integer_part`: the fractional
part of the absolute value of the input; lies in `[0, 1)`. -/
def fraction (x : ℚ) : ℚ := absInput x - (integer_part x : ℚ)

/-- The local `sum` of `static_exp` when the Taylor loop exits: the
truncated series for `exp` of the fractional part (fuel `25` is more than
the loop can consume, see `expSeriesGoO_total`). -/
def seriesSum (x : ℚ) : ℚ := expSeriesGo 25 (fraction x) 0 1 1

/-- `static_exp(x)`: split `|x|` into integer part `n` and fractional part
`r`; Taylor series for `exp(r)` (starting from `sum = 0`, `term = 1`,
`i = 1`); combine with `base^n` where `base = e` when `x ≥ 0` and `1/e`
otherwise, and with the series factor inverted when `x < 0`.  The source's
three uses of the flag `positive` are gathered into a single two-way
branch. -/
def static_exp (x : ℚ) : ℚ :=
  if 0 ≤ x then static_int_pow eLit (integer_part x) * seriesSum x
  else static_int_pow (1 / eLit) (integer_part x) * (1 / seriesSum x)

/-- The float literal `kRootOf2Pi = 2.50662827463`. -/
def kRootOf2Pi : ℚ := 250662827463 / 10 ^ 11

/-- `NormalProbabilityDensity::eval`: the normal probability density
`(1 / (stdev * sqrt(2π))) * exp(-0.5 * ((x-mean)/stdev)^2)`, with the
source's approximate `exp` and literal `sqrt(2π)`. -/
def eval (kMean kStdev : ℚ) (x : ℚ) : ℚ :=
  (1 / (kStdev * kRootOf2Pi)) *
    static_exp (-(1/2) * (x - kMean) * (x - kMean) / kStdev / kStdev)

end NormalProbabilityDensity

namespace Confidence

/-- The running sum `sum` of the table-construction loop after the body of
iteration `k+1` has updated it (equivalently: before iteration `k+2`):
`cdfSum f k = f 0 / 2 + f 1 + ⋯ + f k`, where `f j` is the density sample
at grid point `j`.  Initial value (`k = 0`): `f 0 / 2`. -/
def cdfSum (f : ℕ → ℚ) : ℕ → ℚ
  | 0 => f 0 / 2
  | k+1 => cdfSum f k + f (k+1)

/-- Entry `i` of the table `cdf_`.  The loop sets `v[0] = 0` and, at
iteration `i ≥ 1`, `v[i] = delta * (sum + f i / 2)` where `sum` is the
running sum after iterations `1 … i-1`, i.e. `cdfSum f (i-1)`. -/
def cdf_ (f : ℕ → ℚ) (delta : ℚ) : ℕ → ℚ
  | 0 => 0
  | i+1 => delta * (cdfSum f i + f (i+1) / 2)

end Confidence

namespace Metric

/-- `NormalDistributionParams::kMean = 0.043`. -/
def kMean : ℚ := 43 / 1000

/-- `NormalDistributionParams::kStdev = 0.026`. -/
def kStdev : ℚ := 26 / 1000

/-- `Limits::kLower = kMean - 6 * kStdev`. -/
def kLower : ℚ := kMean - 6 * kStdev

/-- `Limits::kUpper = kMean + 6 * kStdev`. -/
def kUpper : ℚ := kMean + 6 * kStdev

/-- Resolution `kPoints = 10000`. -/
def kPoints : ℕ := 10000

/-- `kDelta = (kUpper - kLower) / kPoints`. -/
def kDelta : ℚ := (kUpper - kLower) / (kPoints : ℚ)

/-- Density sample at grid point `j`: `DistributionFunction::eval(kLower + kDelta * j)`. -/
def fGrid (j : ℕ) : ℚ :=
  NormalProbabilityDensity.eval kMean kStdev (kLower + kDelta * (j : ℚ))

/-- The precomputed table `cdf_` of `Metric = Confidence<10000, Limits, …>`. -/
def cdf (i : ℕ) : ℚ := Confidence.cdf_ fGrid kDelta i

/-- The bucket index `int((x - kLower) / kDelta)` of `evaluate`.  The C cast
truncates toward zero; at every use `x > kLower`, so the quantity is
positive and truncation is the floor. -/
def bucket (x : ℚ) : ℕ := (⌊(x - kLower) / kDelta⌋).toNat

/-- `Confidence::evaluate`: `0` outside `(kLower, kUpper)`, otherwise
`2 * min(cdf_[i], 1 - cdf_[i])` at the bucket index `i`. -/
def evaluate (x : ℚ) : ℚ :=
  if x ≤ kLower ∨ kUpper ≤ x then 0
  else 2 * min (cdf (bucket x)) (1 - cdf (bucket x))

end Metric

/-!
## Accelerated mirror of the table computation

Evaluating the table inside the kernel through the `ℚ`-valued definitions
above is too slow for the numeric facts below, so we mirror the per-point
computation in plain natural-number arithmetic and prove the mirror equal
to the definitions above (`fGridF_eq_fGrid`); only the proven-equal mirror
is ever evaluated.
-/

/-- Integer mirror of the Taylor loop `expSeriesGo`: the state is
`sum = sn / td`, `term = tn / td` over a common denominator `td`, with
`x = rn / rd`; returns the final `(sn, td)`.
See `expSeriesGo_eq_taylorF`. -/
def taylorF : ℕ → ℕ → ℕ → ℕ → ℕ → ℕ → ℕ → ℕ × ℕ
  | 0, _, _, sn, _, td, _ => (sn, td)
  | fuel+1, rn, rd, sn, tn, td, i =>
      cond (Nat.blt td (tn * 1000000))
        (taylorF fuel rn rd ((sn + tn) * (rd * i)) (tn * rn) (td * (rd * i)) (i+1))
        (sn, td)

/-- Integer mirror of the density sample `Metric.fGrid j`: the power at
grid point `j` is `-(9 * (j - 5000)^2) / 12500000`, its integer and
fractional parts are obtained by natural division, and the final value is
assembled from `e = 2718281828459045 / 10^15` and
`stdev * sqrt(2π) = 6517233514038 / 10^14`.  See `fGridF_eq_fGrid`. -/
def fGridF (j : ℕ) : ℚ :=
  let m : ℕ := ((j : ℤ) - 5000).natAbs
  let a : ℕ := 9 * m * m
  let n : ℕ := a / 12500000
  let rn : ℕ := a % 12500000
  let p := taylorF 25 rn 12500000 0 1 1 1
  mkRat ((10 ^ (14 + 15 * n) * p.2 : ℕ) : ℤ) (6517233514038 * 2718281828459045 ^ n * p.1)

/-- Strict tail-recursive running sum: `fuel` more samples are added to
`acc`, starting at index `k+1`; the pattern match forces each intermediate
rational to normal form so that kernel evaluation runs in constant stack
space.  See `sumF_eq`. -/
def sumF (g : ℕ → ℚ) : ℕ → ℕ → ℚ → ℚ
  | 0, _, acc => acc
  | fuel+1, k, acc =>
      match Rat.add acc (g (k+1)) with
      | .mk' n d h1 h2 => sumF g fuel (k+1) (Rat.mk' n d h1 h2)

/-- Accelerated form of the last table entry `Metric.cdf 10000`
(see `cdfTopF_eq`). -/
def cdfTopF : ℚ :=
  Metric.kDelta * (sumF fGridF 9999 0 (fGridF 0 / 2) + fGridF 10000 / 2)

/-- One 500-sample chunk of the table sum: samples `500k+1 … 500k+500`.
The heavy kernel evaluation is done chunk by chunk (each in its own
auxiliary lemma) to keep the checker's memory use bounded. -/
def chunkF (k : ℕ) : ℚ := sumF fGridF 500 (500 * k) 0

/-! ## Basic lemmas about the exponential primitive -/

namespace NormalProbabilityDensity

theorem ipowGo_eq_pow : ∀ (fuel : ℕ) (x p : ℚ) (n : ℕ), n < 2 ^ fuel →
    ipowGo fuel x p n = p * x ^ n := by
  intro fuel
  induction fuel with
  | zero =>
      intro x p n hn
      have h1 : n = 0 := by
        have : n < 1 := by simpa using hn
        omega
      simp [h1, ipowGo]
  | succ fuel ih =>
      intro x p n hn
      rw [ipowGo]
      by_cases h0 : n = 0
      · simp [h0]
      · have hdiv : n / 2 < 2 ^ fuel := by
          have h2 : (0:ℕ) < 2 := by norm_num
          rw [Nat.div_lt_iff_lt_mul h2]
          calc n < 2 ^ (fuel + 1) := hn
          _ = 2 ^ fuel * 2 := by rw [pow_succ]
        rw [if_neg h0, ih _ _ _ hdiv]
        have key : (x * x) ^ (n / 2) * x ^ (n % 2) = x ^ n := by
          rw [← pow_two, ← pow_mul, ← pow_add, Nat.div_add_mod]
        rcases Nat.mod_two_eq_zero_or_one n with hm | hm
        · rw [if_neg (by rw [hm]; norm_num), ← key, hm, pow_zero, mul_one]
        · rw [if_pos hm, ← key, hm, pow_one]
          ring

theorem static_int_pow_eq_pow (x : ℚ) (n : ℕ) : static_int_pow x n = x ^ n := by
  have h : n < 2 ^ (n + 1) :=
    lt_of_lt_of_le (Nat.lt_two_pow n) (Nat.pow_le_pow_right (by norm_num) (Nat.le_succ n))
  rw [static_int_pow, ipowGo_eq_pow _ _ _ _ h, one_mul]

theorem ipowGoO_eq_some : ∀ (fuel : ℕ) (x p : ℚ) (n : ℕ), n < 2 ^ fuel →
    ipowGoO (fuel + 1) x p n = some (ipowGo (fuel + 1) x p n) := by
  intro fuel
  induction fuel with
  | zero =>
      intro x p n hn
      have h1 : n = 0 := by
        have : n < 1 := by simpa using hn
        omega
      rw [ipowGoO, ipowGo, if_pos h1, if_pos h1]
  | succ fuel ih =>
      intro x p n hn
      rw [ipowGoO, ipowGo]
      by_cases h0 : n = 0
      · rw [if_pos h0, if_pos h0]
      · have hdiv : n / 2 < 2 ^ fuel := by
          have h2 : (0:ℕ) < 2 := by norm_num
          rw [Nat.div_lt_iff_lt_mul h2]
          calc n < 2 ^ (fuel + 1) := hn
          _ = 2 ^ fuel * 2 := by rw [pow_succ]
        rw [if_neg h0, if_neg h0, ih _ _ _ hdiv]

theorem expSeriesGo_ge_sum : ∀ (fuel : ℕ) (x sum term : ℚ) (i : ℕ),
    0 ≤ x → 0 ≤ term → sum ≤ expSeriesGo fuel x sum term i := by
  intro fuel
  induction fuel with
  | zero => intro x sum term i _ _; exact le_of_eq rfl
  | succ fuel ih =>
      intro x sum term i hx ht
      rw [expSeriesGo]
      by_cases hc : 1/1000000 < term
      · rw [if_pos hc]
        calc sum ≤ sum + term := le_add_of_nonneg_right ht
        _ ≤ _ := ih x (sum + term) (term * (x / (i:ℚ))) (i+1) hx
              (mul_nonneg ht (div_nonneg hx (Nat.cast_nonneg i)))
      · rw [if_neg hc]

theorem expSeriesGo_nonneg (fuel : ℕ) (x sum term : ℚ) (i : ℕ)
    (hx : 0 ≤ x) (hs : 0 ≤ sum) (ht : 0 ≤ term) :
    0 ≤ expSeriesGo fuel x sum term i :=
  le_trans hs (expSeriesGo_ge_sum fuel x sum term i hx ht)

end NormalProbabilityDensity
namespace NormalProbabilityDensity

theorem expSeriesGoO_eq_some : ∀ (fuel : ℕ) (x sum term : ℚ) (i : ℕ),
    0 ≤ x → x < 1 → 2 ≤ i → 0 ≤ term → term * 1000000 ≤ 2 ^ fuel →
    expSeriesGoO (fuel + 1) x sum term i = some (expSeriesGo (fuel + 1) x sum term i) := by
  intro fuel
  induction fuel with
  | zero =>
      intro x sum term i _ _ _ _ hb
      have hc : ¬ ((1:ℚ)/1000000 < term) := by
        rw [not_lt]
        rw [pow_zero] at hb
        linarith
      rw [expSeriesGoO, expSeriesGo, if_neg hc, if_neg hc]
  | succ fuel ih =>
      intro x sum term i hx hx1 hi ht hb
      rw [expSeriesGoO, expSeriesGo]
      by_cases hc : (1:ℚ)/1000000 < term
      · rw [if_pos hc, if_pos hc]
        have hi2 : (2:ℚ) ≤ (i:ℚ) := by exact_mod_cast hi
        have hipos : (0:ℚ) < (i:ℚ) := by linarith
        have hdivnn : 0 ≤ x / (i:ℚ) := div_nonneg hx (le_of_lt hipos)
        have hxi : x / (i:ℚ) ≤ 1/2 := by
          rw [div_le_div_iff₀ hipos (by norm_num : (0:ℚ) < 2)]
          nlinarith
        have hb' : (term * (x / (i:ℚ))) * 1000000 ≤ 2 ^ fuel := by
          calc (term * (x / (i:ℚ))) * 1000000 = (term * 1000000) * (x / (i:ℚ)) := by ring
          _ ≤ 2 ^ (fuel + 1) * (1/2) := by
              apply mul_le_mul hb hxi hdivnn (pow_nonneg (by norm_num) _)
          _ = 2 ^ fuel := by rw [pow_succ]; ring
        exact ih x (sum + term) (term * (x / (i:ℚ))) (i+1) hx hx1
          (le_trans hi (Nat.le_succ i)) (mul_nonneg ht hdivnn) hb'
      · rw [if_neg hc, if_neg hc]

theorem expSeriesGoO_total (r : ℚ) (h0 : 0 ≤ r) (h1 : r < 1) :
    expSeriesGoO 25 r 0 1 1 = some (expSeriesGo 25 r 0 1 1) := by
  show expSeriesGoO (24+1) r 0 1 1 = some (expSeriesGo (24+1) r 0 1 1)
  rw [expSeriesGoO, expSeriesGo, if_pos (by norm_num : (1:ℚ)/1000000 < 1),
    if_pos (by norm_num : (1:ℚ)/1000000 < 1)]
  have h2 : (1:ℚ) * (r / (((1:ℕ)):ℚ)) = r := by norm_num
  rw [h2]
  exact expSeriesGoO_eq_some 23 r (0+1) r 2 h0 h1 (le_refl 2) h0
    (by calc r * 1000000 ≤ 1 * 1000000 := by nlinarith
        _ ≤ 2 ^ 23 := by norm_num)

theorem absInput_nonneg (x : ℚ) : 0 ≤ absInput x := by
  rw [absInput]
  by_cases h : x < 0
  · rw [if_pos h]; linarith
  · rw [if_neg h]; exact le_of_not_lt h

theorem fraction_eq_fract (x : ℚ) : fraction x = Int.fract (absInput x) := by
  have h : 0 ≤ ⌊absInput x⌋ := Int.floor_nonneg.mpr (absInput_nonneg x)
  rw [fraction, Int.fract, integer_part]
  congr 1
  exact_mod_cast Int.toNat_of_nonneg h

theorem fraction_nonneg (x : ℚ) : 0 ≤ fraction x := by
  rw [fraction_eq_fract]; exact Int.fract_nonneg _

theorem fraction_lt_one (x : ℚ) : fraction x < 1 := by
  rw [fraction_eq_fract]; exact Int.fract_lt_one _

theorem seriesSum_ge_one (x : ℚ) : 1 ≤ seriesSum x := by
  rw [seriesSum]
  show 1 ≤ expSeriesGo (24+1) (fraction x) 0 1 1
  rw [expSeriesGo, if_pos (by norm_num : (1:ℚ)/1000000 < 1)]
  have h := expSeriesGo_ge_sum 24 (fraction x) (0+1) (1 * (fraction x / (((1:ℕ)):ℚ))) 2
    (fraction_nonneg x)
    (mul_nonneg (by norm_num) (div_nonneg (fraction_nonneg x) (by norm_num)))
  linarith

theorem seriesSum_pos (x : ℚ) : 0 < seriesSum x :=
  lt_of_lt_of_le zero_lt_one (seriesSum_ge_one x)

theorem eLit_pos : 0 < eLit := by rw [eLit]; norm_num

theorem one_le_eLit : 1 ≤ eLit := by rw [eLit]; norm_num

theorem static_exp_pos (x : ℚ) : 0 < static_exp x := by
  rw [static_exp]
  by_cases h : 0 ≤ x
  · rw [if_pos h, static_int_pow_eq_pow]
    exact mul_pos (pow_pos eLit_pos _) (seriesSum_pos x)
  · rw [if_neg h, static_int_pow_eq_pow]
    exact mul_pos (pow_pos (div_pos one_pos eLit_pos) _)
      (one_div_pos.mpr (seriesSum_pos x))

theorem static_exp_zero : static_exp 0 = 1 := by decide!

theorem static_exp_one : static_exp 1 = eLit := by decide!

theorem static_exp_le_one (x : ℚ) (hx : x ≤ 0) : static_exp x ≤ 1 := by
  rcases hx.lt_or_eq with hlt | heq
  · rw [static_exp, if_neg (not_le.mpr hlt), static_int_pow_eq_pow]
    have hbase0 : 0 ≤ 1 / eLit := le_of_lt (div_pos one_pos eLit_pos)
    have hbase1 : 1 / eLit ≤ 1 := (div_le_one eLit_pos).mpr one_le_eLit
    have h1 : (1 / eLit) ^ (integer_part x) ≤ 1 := pow_le_one₀ hbase0 hbase1
    have h2 : 1 / seriesSum x ≤ 1 := by
      rw [div_le_one (seriesSum_pos x)]; exact seriesSum_ge_one x
    have h2n : 0 ≤ 1 / seriesSum x := le_of_lt (one_div_pos.mpr (seriesSum_pos x))
    calc (1 / eLit) ^ (integer_part x) * (1 / seriesSum x) ≤ 1 * 1 :=
          mul_le_mul h1 h2 h2n zero_le_one
    _ = 1 := by norm_num
  · rw [heq, static_exp_zero]

theorem static_exp_neg_mul_of_pos (x : ℚ) (hx : 0 < x) :
    static_exp (-x) * static_exp x = 1 := by
  have habs : absInput (-x) = x := by
    rw [absInput, if_pos (by linarith : -x < 0), neg_neg]
  have habs2 : absInput x = x := by
    rw [absInput, if_neg (not_lt.mpr hx.le)]
  have hip : integer_part (-x) = integer_part x := by
    rw [integer_part, integer_part, habs, habs2]
  have hfr : fraction (-x) = fraction x := by
    rw [fraction, fraction, habs, habs2, hip]
  have hss : seriesSum (-x) = seriesSum x := by
    rw [seriesSum, seriesSum, hfr]
  rw [static_exp, static_exp, if_neg (not_le.mpr (by linarith : -x < 0)),
    if_pos hx.le, hip, hss, static_int_pow_eq_pow, static_int_pow_eq_pow]
  have h1 : eLit ^ (integer_part x) ≠ 0 := pow_ne_zero _ (ne_of_gt eLit_pos)
  have h2 : seriesSum x ≠ 0 := ne_of_gt (seriesSum_pos x)
  field_simp

theorem static_exp_neg_mul (x : ℚ) : static_exp (-x) * static_exp x = 1 := by
  rcases lt_trichotomy x 0 with hneg | hzero | hpos
  · have h := static_exp_neg_mul_of_pos (-x) (by linarith)
    rw [neg_neg] at h
    rw [mul_comm]
    exact h
  · rw [hzero, neg_zero, static_exp_zero]; norm_num
  · exact static_exp_neg_mul_of_pos x hpos

theorem static_exp_neg_eq_inv (x : ℚ) : static_exp (-x) = 1 / static_exp x := by
  have h := static_exp_neg_mul x
  have hp := static_exp_pos x
  field_simp
  linarith [h]

end NormalProbabilityDensity
/-! ## Lemmas about the cumulative table -/

namespace Confidence

theorem cdfSum_eq (f : ℕ → ℚ) :
    ∀ k, cdfSum f k = f 0 / 2 + ∑ j in Finset.range k, f (j+1) := by
  intro k
  induction k with
  | zero => simp [cdfSum]
  | succ k ih => rw [cdfSum, ih, Finset.sum_range_succ]; ring

theorem cdf_eq_trapezoid (f : ℕ → ℚ) (delta : ℚ) :
    ∀ i, cdf_ f delta i = ∑ j in Finset.range i, delta * (f j + f (j+1)) / 2 := by
  intro i
  induction i with
  | zero => simp [cdf_]
  | succ i ih =>
      rw [Finset.sum_range_succ, ← ih]
      cases i with
      | zero => simp only [cdf_, cdfSum]; ring
      | succ k => simp only [cdf_, cdfSum]; ring

theorem cdf_zero (f : ℕ → ℚ) (delta : ℚ) : cdf_ f delta 0 = 0 := rfl

theorem cdf_step (f : ℕ → ℚ) (delta : ℚ) (i : ℕ) :
    cdf_ f delta (i+1) - cdf_ f delta i = delta * (f i + f (i+1)) / 2 := by
  rw [cdf_eq_trapezoid, cdf_eq_trapezoid, Finset.sum_range_succ]
  ring

theorem cdf_mono (f : ℕ → ℚ) (delta : ℚ) (hd : 0 ≤ delta) (hf : ∀ j, 0 ≤ f j)
    {i j : ℕ} (hij : i ≤ j) : cdf_ f delta i ≤ cdf_ f delta j := by
  rw [cdf_eq_trapezoid, cdf_eq_trapezoid]
  apply Finset.sum_le_sum_of_subset_of_nonneg (Finset.range_subset.mpr hij)
  intro k _ _
  exact div_nonneg (mul_nonneg hd (add_nonneg (hf k) (hf (k+1)))) (by norm_num)

theorem cdf_nonneg (f : ℕ → ℚ) (delta : ℚ) (hd : 0 ≤ delta) (hf : ∀ j, 0 ≤ f j)
    (i : ℕ) : 0 ≤ cdf_ f delta i :=
  le_trans (le_of_eq (cdf_zero f delta).symm) (cdf_mono f delta hd hf (Nat.zero_le i))

theorem cdf_sym (f : ℕ → ℚ) (delta : ℚ) (N : ℕ)
    (hsym : ∀ j, j ≤ N → f (N - j) = f j) :
    ∀ k, k ≤ N → cdf_ f delta k + cdf_ f delta (N - k) = cdf_ f delta N := by
  intro k hk
  have hts : ∀ j, j < N →
      delta * (f (N - 1 - j) + f (N - 1 - j + 1)) / 2 = delta * (f j + f (j+1)) / 2 := by
    intro j hj
    have e1 : N - 1 - j = N - (j+1) := by omega
    have e2 : N - 1 - j + 1 = N - j := by omega
    rw [e2, e1, hsym (j+1) (by omega), hsym j (by omega)]
    ring
  rw [cdf_eq_trapezoid, cdf_eq_trapezoid, cdf_eq_trapezoid]
  have hsub : ∑ j in Finset.Ico k N, delta * (f j + f (j+1)) / 2 =
      (∑ j in Finset.range N, delta * (f j + f (j+1)) / 2) -
      (∑ j in Finset.range k, delta * (f j + f (j+1)) / 2) :=
    Finset.sum_Ico_eq_sub _ hk
  have hico : ∑ j in Finset.Ico k N, delta * (f j + f (j+1)) / 2 =
      ∑ j in Finset.range (N - k), delta * (f (k + j) + f (k + j + 1)) / 2 := by
    rw [Finset.sum_Ico_eq_sum_range]
  have hrefl : ∑ j in Finset.range (N - k), delta * (f (k + j) + f (k + j + 1)) / 2 =
      ∑ j in Finset.range (N - k), delta * (f j + f (j+1)) / 2 := by
    rw [← Finset.sum_range_reflect (fun j => delta * (f (k + j) + f (k + j + 1)) / 2) (N - k)]
    apply Finset.sum_congr rfl
    intro j hj
    have hjlt : j < N - k := Finset.mem_range.mp hj
    have e1 : k + (N - k - 1 - j) = N - 1 - j := by omega
    have e2 : k + (N - k - 1 - j) + 1 = N - 1 - j + 1 := by omega
    rw [e2, e1]
    exact hts j (by omega)
  linarith [hsub, hico, hrefl]

end Confidence
/-! ## Lemmas about the reference configuration -/

namespace Metric

theorem kDelta_pos : 0 < kDelta := by
  rw [kDelta, kUpper, kLower, kMean, kStdev, kPoints]
  norm_num

theorem kStdev_pos : 0 < kStdev := by rw [kStdev]; norm_num

theorem power_nonpos (x : ℚ) :
    -(1/2) * (x - kMean) * (x - kMean) / kStdev / kStdev ≤ 0 := by
  rw [kStdev]
  have h := mul_self_nonneg (x - kMean)
  nlinarith [h]

theorem fGrid_pos (j : ℕ) : 0 < fGrid j := by
  rw [fGrid, NormalProbabilityDensity.eval]
  apply mul_pos _ (NormalProbabilityDensity.static_exp_pos _)
  rw [kStdev, NormalProbabilityDensity.kRootOf2Pi]
  norm_num

theorem fGrid_le_bound (j : ℕ) : fGrid j ≤ 10 ^ 14 / 6517233514038 := by
  rw [fGrid, NormalProbabilityDensity.eval]
  have hexp := NormalProbabilityDensity.static_exp_le_one
    (-(1/2) * ((kLower + kDelta * (j:ℚ)) - kMean) * ((kLower + kDelta * (j:ℚ)) - kMean)
      / kStdev / kStdev) (power_nonpos _)
  have hC : 1 / (kStdev * NormalProbabilityDensity.kRootOf2Pi)
      = (10:ℚ) ^ 14 / 6517233514038 := by
    rw [kStdev, NormalProbabilityDensity.kRootOf2Pi]
    norm_num
  rw [hC]
  exact mul_le_of_le_one_right (by norm_num) hexp

theorem eval_reflect (m s x : ℚ) :
    NormalProbabilityDensity.eval m s (2 * m - x) = NormalProbabilityDensity.eval m s x := by
  rw [NormalProbabilityDensity.eval, NormalProbabilityDensity.eval]
  have harg : -(1/2) * ((2 * m - x) - m) * ((2 * m - x) - m) / s / s
      = -(1/2) * (x - m) * (x - m) / s / s := by ring
  rw [harg]

theorem fGrid_sym : ∀ j, j ≤ 10000 → fGrid (10000 - j) = fGrid j := by
  intro j hj
  have hcast : ((10000 - j : ℕ) : ℚ) = 10000 - (j:ℚ) := by
    push_cast [hj]
    ring
  rw [fGrid, fGrid, hcast]
  have harg : kLower + kDelta * (10000 - (j:ℚ)) = 2 * kMean - (kLower + kDelta * (j:ℚ)) := by
    simp only [kLower, kDelta, kUpper, kMean, kStdev, kPoints]
    push_cast
    ring
  rw [harg, eval_reflect]

theorem cdf_mono' {i j : ℕ} (h : i ≤ j) : cdf i ≤ cdf j :=
  Confidence.cdf_mono fGrid kDelta kDelta_pos.le (fun k => (fGrid_pos k).le) h

theorem cdf_nonneg' (i : ℕ) : 0 ≤ cdf i :=
  Confidence.cdf_nonneg fGrid kDelta kDelta_pos.le (fun k => (fGrid_pos k).le) i

theorem cdf_sym' : ∀ k, k ≤ 10000 → cdf k + cdf (10000 - k) = cdf 10000 :=
  Confidence.cdf_sym fGrid kDelta 10000 fGrid_sym

theorem two_cdf_mid : 2 * cdf 5000 = cdf 10000 := by
  have h := cdf_sym' 5000 (by norm_num)
  norm_num at h
  linarith

theorem cdf_step' (i : ℕ) : cdf (i+1) - cdf i = kDelta * (fGrid i + fGrid (i+1)) / 2 :=
  Confidence.cdf_step fGrid kDelta i

end Metric
/-! ## The accelerated mirror agrees with the embedding -/

theorem taylorF_snd_pos : ∀ (fuel rn rd sn tn td i : ℕ), 0 < rd → 0 < td → 1 ≤ i →
    0 < (taylorF fuel rn rd sn tn td i).2 := by
  intro fuel
  induction fuel with
  | zero => intro rn rd sn tn td i _ htd _; exact htd
  | succ fuel ih =>
      intro rn rd sn tn td i hrd htd hi
      rw [taylorF]
      cases hblt : Nat.blt td (tn * 1000000) with
      | false => exact htd
      | true =>
          exact ih rn rd _ _ _ (i+1) hrd
            (Nat.mul_pos htd (Nat.mul_pos hrd hi)) (le_trans hi (Nat.le_succ i))

theorem expSeriesGo_eq_taylorF :
    ∀ (fuel rn rd sn tn td i : ℕ), 0 < rd → 0 < td → 1 ≤ i →
    NormalProbabilityDensity.expSeriesGo fuel ((rn:ℚ)/(rd:ℚ)) ((sn:ℚ)/(td:ℚ)) ((tn:ℚ)/(td:ℚ)) i =
      ((taylorF fuel rn rd sn tn td i).1 : ℚ) / ((taylorF fuel rn rd sn tn td i).2 : ℚ) := by
  intro fuel
  induction fuel with
  | zero => intro rn rd sn tn td i _ _ _; rw [NormalProbabilityDensity.expSeriesGo, taylorF]
  | succ fuel ih =>
      intro rn rd sn tn td i hrd htd hi
      have htdQ : (0:ℚ) < (td:ℚ) := by exact_mod_cast htd
      have hrdQ : (0:ℚ) < (rd:ℚ) := by exact_mod_cast hrd
      have hiQ : (0:ℚ) < (i:ℚ) := by exact_mod_cast hi
      rw [NormalProbabilityDensity.expSeriesGo, taylorF]
      by_cases hc : (1:ℚ)/1000000 < (tn:ℚ)/(td:ℚ)
      · have hcn : td < tn * 1000000 := by
          have h := (div_lt_div_iff₀ (by norm_num : (0:ℚ) < 1000000) htdQ).mp hc
          rw [one_mul] at h
          exact_mod_cast h
        have hblt : Nat.blt td (tn * 1000000) = true := by
          rw [Nat.blt_eq]
          exact hcn
        rw [if_pos hc, hblt, cond_true]
        have e1 : (sn:ℚ)/(td:ℚ) + (tn:ℚ)/(td:ℚ)
            = (((sn + tn) * (rd * i) : ℕ):ℚ) / ((td * (rd * i) : ℕ):ℚ) := by
          push_cast
          rw [div_add_div_same]
          rw [mul_div_mul_right _ _ (by positivity : (rd:ℚ) * (i:ℚ) ≠ 0)]
        have e2 : (tn:ℚ)/(td:ℚ) * (((rn:ℚ)/(rd:ℚ)) / (i:ℚ))
            = ((tn * rn : ℕ):ℚ) / ((td * (rd * i) : ℕ):ℚ) := by
          push_cast
          field_simp
        rw [e1, e2]
        exact ih rn rd ((sn + tn) * (rd * i)) (tn * rn) (td * (rd * i)) (i+1) hrd
          (Nat.mul_pos htd (Nat.mul_pos hrd hi)) (le_trans hi (Nat.le_succ i))
      · have hcn : ¬ (td < tn * 1000000) := by
          intro h
          apply hc
          rw [div_lt_div_iff₀ (by norm_num : (0:ℚ) < 1000000) htdQ, one_mul]
          exact_mod_cast h
        have hblt : Nat.blt td (tn * 1000000) = false := by
          rw [← Bool.not_eq_true, Nat.blt_eq]
          exact hcn
        rw [if_neg hc, hblt, cond_false]

namespace NormalProbabilityDensity

theorem expSeriesGo_start_ge_one (x : ℚ) (hx : 0 ≤ x) : 1 ≤ expSeriesGo 25 x 0 1 1 := by
  show 1 ≤ expSeriesGo (24+1) x 0 1 1
  rw [expSeriesGo, if_pos (by norm_num : (1:ℚ)/1000000 < 1)]
  have h := expSeriesGo_ge_sum 24 x (0+1) (1 * (x / (((1:ℕ)):ℚ))) 2 hx
    (mul_nonneg (by norm_num) (div_nonneg hx (by norm_num)))
  linarith

theorem staticExp_neg_div (a b : ℕ) (ha : 0 < a) (hb : 0 < b) :
    static_exp (-((a:ℚ)/(b:ℚ))) =
      (1/eLit) ^ (a / b) * (1 / expSeriesGo 25 (((a % b : ℕ):ℚ)/(b:ℚ)) 0 1 1) := by
  have hbQ : (0:ℚ) < (b:ℚ) := by exact_mod_cast hb
  have haQ : (0:ℚ) < (a:ℚ) := by exact_mod_cast ha
  have hp : -((a:ℚ)/(b:ℚ)) < 0 := neg_lt_zero.mpr (div_pos haQ hbQ)
  have habs : absInput (-((a:ℚ)/(b:ℚ))) = (a:ℚ)/(b:ℚ) := by
    rw [absInput, if_pos hp, neg_neg]
  have hip : integer_part (-((a:ℚ)/(b:ℚ))) = a / b := by
    rw [integer_part, habs, Int.floor_toNat, Nat.floor_div_nat, Nat.floor_natCast]
  have hfr : fraction (-((a:ℚ)/(b:ℚ))) = ((a % b : ℕ):ℚ)/(b:ℚ) := by
    rw [fraction, habs, hip]
    have hmod : ((a % b : ℕ):ℚ) + (b:ℚ) * ((a / b : ℕ):ℚ) = (a:ℚ) := by
      exact_mod_cast Nat.mod_add_div a b
    field_simp
    linarith [hmod]
  rw [static_exp, if_neg (not_le.mpr hp), hip, seriesSum, hfr, static_int_pow_eq_pow]

end NormalProbabilityDensity
namespace Metric

theorem power_formula (j : ℕ) :
    -(1/2) * (kLower + kDelta * (j:ℚ) - kMean) * (kLower + kDelta * (j:ℚ) - kMean)
        / kStdev / kStdev
      = -(((9 * ((j:ℤ) - 5000).natAbs * ((j:ℤ) - 5000).natAbs : ℕ) : ℚ)
          / (((12500000 : ℕ)) : ℚ)) := by
  have h1 : ((((j:ℤ) - 5000).natAbs : ℕ) : ℚ) = |(j:ℚ) - 5000| := by
    rw [Int.cast_natAbs]
    push_cast
    ring
  have h2 : (((9 * ((j:ℤ) - 5000).natAbs * ((j:ℤ) - 5000).natAbs : ℕ)) : ℚ)
      = 9 * (((j:ℚ) - 5000) * ((j:ℚ) - 5000)) := by
    push_cast
    rw [h1, mul_assoc, abs_mul_abs_self]
  rw [h2]
  simp only [kLower, kDelta, kUpper, kMean, kStdev, kPoints]
  push_cast
  ring

end Metric

theorem fGridF_eq_fGrid (j : ℕ) : fGridF j = Metric.fGrid j := by
  by_cases hj5 : j = 5000
  · subst hj5
    decide!
  · have hm : 0 < ((j:ℤ) - 5000).natAbs :=
      Int.natAbs_pos.mpr (sub_ne_zero.mpr (by exact_mod_cast hj5))
    set m := ((j:ℤ) - 5000).natAbs with hmdef
    have hapos : 0 < 9 * m * m := Nat.mul_pos (Nat.mul_pos (by norm_num) hm) hm
    rw [Metric.fGrid, NormalProbabilityDensity.eval, Metric.power_formula j]
    rw [NormalProbabilityDensity.staticExp_neg_div (9 * m * m) 12500000 hapos (by norm_num)]
    rw [fGridF]
    set n := 9 * m * m / 12500000 with hn
    set rn := 9 * m * m % 12500000 with hrn
    set P := taylorF 25 rn 12500000 0 1 1 1 with hP
    have hT := expSeriesGo_eq_taylorF 25 rn 12500000 0 1 1 1 (by norm_num) (by norm_num)
      (by norm_num)
    simp only [Nat.cast_zero, Nat.cast_one, zero_div, div_one] at hT
    rw [hT]
    have hP2 : 0 < P.2 := taylorF_snd_pos 25 rn 12500000 0 1 1 1 (by norm_num) (by norm_num)
      (by norm_num)
    have hP2Q : (0:ℚ) < (P.2:ℚ) := by exact_mod_cast hP2
    have hge1 : 1 ≤ (P.1:ℚ)/(P.2:ℚ) := by
      rw [← hT]
      exact NormalProbabilityDensity.expSeriesGo_start_ge_one _ (by positivity)
    have hP1Q : (0:ℚ) < (P.1:ℚ) := by
      have h := (le_div_iff₀ hP2Q).mp hge1
      rw [one_mul] at h
      linarith
    have heLit : (1 / NormalProbabilityDensity.eLit) = (10:ℚ)^15 / 2718281828459045 := by
      rw [NormalProbabilityDensity.eLit]
      norm_num
    have hC : 1 / (Metric.kStdev * NormalProbabilityDensity.kRootOf2Pi)
        = (10:ℚ)^14 / 6517233514038 := by
      rw [Metric.kStdev, NormalProbabilityDensity.kRootOf2Pi]
      norm_num
    rw [hC, heLit, Rat.mkRat_eq_div]
    push_cast
    rw [one_div_div]
    field_simp
    have hpow : ((10:ℚ) ^ 15) ^ n = (10:ℚ) ^ (15 * n) := (pow_mul 10 15 n).symm
    have hpow2 : (10:ℚ) ^ (14 + 15 * n) = 10 ^ 14 * 10 ^ (15 * n) := pow_add 10 14 (15 * n)
    rw [hpow, hpow2]
    ring

theorem sumF_eq (g : ℕ → ℚ) : ∀ (c k : ℕ) (acc : ℚ),
    sumF g c k acc = acc + ∑ j in Finset.range c, g (k + 1 + j) := by
  intro c
  induction c with
  | zero => intro k acc; simp [sumF]
  | succ c ih =>
      intro k acc
      rw [sumF]
      have hmatch : (match Rat.add acc (g (k+1)) with
          | .mk' n d h1 h2 => sumF g c (k+1) (Rat.mk' n d h1 h2))
          = sumF g c (k+1) (Rat.add acc (g (k+1))) := by
        cases Rat.add acc (g (k+1))
        rfl
      rw [hmatch]
      have hadd : Rat.add acc (g (k+1)) = acc + g (k+1) := rfl
      rw [hadd, ih]
      rw [Finset.sum_range_succ']
      have hidx : ∀ jj, k + 1 + 1 + jj = k + 1 + (jj + 1) := by omega
      have hsum : ∑ j in Finset.range c, g (k + 1 + 1 + j)
          = ∑ j in Finset.range c, g (k + 1 + (j + 1)) :=
        Finset.sum_congr rfl (fun j _ => by rw [hidx j])
      rw [hsum]
      simp only [Nat.add_zero]
      ring

theorem cdfTopF_eq : cdfTopF = Metric.cdf 10000 := by
  have hg : fGridF = Metric.fGrid := funext fGridF_eq_fGrid
  rw [cdfTopF, hg, sumF_eq]
  have hcdf : Metric.cdf 10000
      = Metric.kDelta * (Confidence.cdfSum Metric.fGrid 9999 + Metric.fGrid 10000 / 2) := rfl
  rw [hcdf, Confidence.cdfSum_eq]
  have hsum : ∑ j in Finset.range 9999, Metric.fGrid (0 + 1 + j)
      = ∑ j in Finset.range 9999, Metric.fGrid (j + 1) :=
    Finset.sum_congr rfl (fun j _ => by rw [Nat.zero_add, Nat.add_comm])
  rw [hsum]
/-! ## Numeric facts about the table, established by kernel evaluation -/

theorem sum_range_split (h : ℕ → ℚ) (m n : ℕ) :
    ∑ j in Finset.range (m + n), h j
      = (∑ j in Finset.range m, h j) + ∑ j in Finset.range n, h (m + j) := by
  induction n with
  | zero => simp
  | succ n ih =>
      rw [← Nat.add_assoc, Finset.sum_range_succ, ih, Finset.sum_range_succ]
      ring

theorem chunkF_eq (k : ℕ) :
    chunkF k = ∑ j in Finset.range 500, fGridF (500 * k + 1 + j) := by
  rw [chunkF, sumF_eq, zero_add]

/-- Enclosure of chunk `0` of the table sum, by kernel evaluation. -/
theorem chunkF_approx_0 : |chunkF 0 - (2079601/2000000000 : ℚ)| ≤ 1/2000000000 := by
  decide!

/-- Enclosure of chunk `1` of the table sum, by kernel evaluation. -/
theorem chunkF_approx_1 : |chunkF 1 - (9772761/400000000 : ℚ)| ≤ 1/2000000000 := by
  decide!

/-- Enclosure of chunk `2` of the table sum, by kernel evaluation. -/
theorem chunkF_approx_2 : |chunkF 2 - (806758973/2000000000 : ℚ)| ≤ 1/2000000000 := by
  decide!

/-- Enclosure of chunk `3` of the table sum, by kernel evaluation. -/
theorem chunkF_approx_3 : |chunkF 3 - (9365056381/2000000000 : ℚ)| ≤ 1/2000000000 := by
  decide!

/-- Enclosure of chunk `4` of the table sum, by kernel evaluation. -/
theorem chunkF_approx_4 : |chunkF 4 - (76479678181/2000000000 : ℚ)| ≤ 1/2000000000 := by
  decide!

/-- Enclosure of chunk `5` of the table sum, by kernel evaluation. -/
theorem chunkF_approx_5 : |chunkF 5 - (439642417627/2000000000 : ℚ)| ≤ 1/2000000000 := by
  decide!

/-- Enclosure of chunk `6` of the table sum, by kernel evaluation. -/
theorem chunkF_approx_6 : |chunkF 6 - (1779918773183/2000000000 : ℚ)| ≤ 1/2000000000 := by
  decide!

/-- Enclosure of chunk `7` of the table sum, by kernel evaluation. -/
theorem chunkF_approx_7 : |chunkF 7 - (5077469164881/2000000000 : ℚ)| ≤ 1/2000000000 := by
  decide!

/-- Enclosure of chunk `8` of the table sum, by kernel evaluation. -/
theorem chunkF_approx_8 : |chunkF 8 - (10209416715133/2000000000 : ℚ)| ≤ 1/2000000000 := by
  decide!

/-- Enclosure of chunk `9` of the table sum, by kernel evaluation. -/
theorem chunkF_approx_9 : |chunkF 9 - (2894696601217/400000000 : ℚ)| ≤ 1/2000000000 := by
  decide!

/-- Enclosure of chunk `10` of the table sum, by kernel evaluation. -/
theorem chunkF_approx_10 : |chunkF 10 - (14468427801161/2000000000 : ℚ)| ≤ 1/2000000000 := by
  decide!

/-- Enclosure of chunk `11` of the table sum, by kernel evaluation. -/
theorem chunkF_approx_11 : |chunkF 11 - (10198721442301/2000000000 : ℚ)| ≤ 1/2000000000 := by
  decide!

/-- Enclosure of chunk `12` of the table sum, by kernel evaluation. -/
theorem chunkF_approx_12 : |chunkF 12 - (5068604865913/2000000000 : ℚ)| ≤ 1/2000000000 := by
  decide!

/-- Enclosure of chunk `13` of the table sum, by kernel evaluation. -/
theorem chunkF_approx_13 : |chunkF 13 - (1775568339043/2000000000 : ℚ)| ≤ 1/2000000000 := by
  decide!

/-- Enclosure of chunk `14` of the table sum, by kernel evaluation. -/
theorem chunkF_approx_14 : |chunkF 14 - (87652134441/400000000 : ℚ)| ≤ 1/2000000000 := by
  decide!

/-- Enclosure of chunk `15` of the table sum, by kernel evaluation. -/
theorem chunkF_approx_15 : |chunkF 15 - (609486689/16000000 : ℚ)| ≤ 1/2000000000 := by
  decide!

/-- Enclosure of chunk `16` of the table sum, by kernel evaluation. -/
theorem chunkF_approx_16 : |chunkF 16 - (9322521083/2000000000 : ℚ)| ≤ 1/2000000000 := by
  decide!

/-- Enclosure of chunk `17` of the table sum, by kernel evaluation. -/
theorem chunkF_approx_17 : |chunkF 17 - (160505921/400000000 : ℚ)| ≤ 1/2000000000 := by
  decide!

/-- Enclosure of chunk `18` of the table sum, by kernel evaluation. -/
theorem chunkF_approx_18 : |chunkF 18 - (48573377/2000000000 : ℚ)| ≤ 1/2000000000 := by
  decide!

/-- Enclosure of chunk `19` of the table sum, by kernel evaluation. -/
theorem chunkF_approx_19 : |chunkF 19 - (2065781/2000000000 : ℚ)| ≤ 1/2000000000 := by
  decide!

/-- Enclosure of the density sample at grid point `0`. -/
theorem fGridF_approx_0 : |fGridF 0 - (467375603/2000000000000000 : ℚ)| ≤ 1/2000000000000000 := by
  decide!

/-- Enclosure of the density sample at grid point `10000`. -/
theorem fGridF_approx_top : |fGridF 10000 - (467375603/2000000000000000 : ℚ)| ≤ 1/2000000000000000 := by
  decide!

theorem sum_chunks :
    ∀ K : ℕ, ∑ j in Finset.range (500 * K), fGridF (1 + j)
      = ∑ k in Finset.range K, chunkF k := by
  intro K
  induction K with
  | zero => simp
  | succ K ih =>
      have h5 : 500 * (K + 1) = 500 * K + 500 := by ring
      rw [h5, sum_range_split, ih, Finset.sum_range_succ (fun k => chunkF k) K, chunkF_eq]
      congr 1
      apply Finset.sum_congr rfl
      intro j _
      congr 1
      omega

theorem cdfTopF_as_chunks :
    cdfTopF = Metric.kDelta *
      (fGridF 0 / 2 + (∑ k in Finset.range 20, chunkF k) - fGridF 10000 / 2) := by
  have hs := sum_chunks 20
  norm_num at hs
  have hsucc := Finset.sum_range_succ (fun j => fGridF (1 + j)) 9999
  norm_num at hsucc
  rw [cdfTopF, sumF_eq, ← hs, hsucc]
  simp only [Nat.zero_add]
  ring

theorem cdfTopF_bounds : 1 ≤ cdfTopF ∧ cdfTopF ≤ 1 + 1/1000000 := by
  rw [cdfTopF_as_chunks]
  have hd : Metric.kDelta = 39/1250000 := by
    simp only [Metric.kDelta, Metric.kUpper, Metric.kLower, Metric.kMean, Metric.kStdev,
      Metric.kPoints]
    norm_num
  rw [hd]
  have hexp : ∑ k in Finset.range 20, chunkF k
      = chunkF 0 + chunkF 1 + chunkF 2 + chunkF 3 + chunkF 4 + chunkF 5 + chunkF 6 +
        chunkF 7 + chunkF 8 + chunkF 9 + chunkF 10 + chunkF 11 + chunkF 12 + chunkF 13 +
        chunkF 14 + chunkF 15 + chunkF 16 + chunkF 17 + chunkF 18 + chunkF 19 := by
    simp [Finset.sum_range_succ]
  rw [hexp]
  obtain ⟨hc0a, hc0b⟩ := abs_le.mp chunkF_approx_0
  obtain ⟨hc1a, hc1b⟩ := abs_le.mp chunkF_approx_1
  obtain ⟨hc2a, hc2b⟩ := abs_le.mp chunkF_approx_2
  obtain ⟨hc3a, hc3b⟩ := abs_le.mp chunkF_approx_3
  obtain ⟨hc4a, hc4b⟩ := abs_le.mp chunkF_approx_4
  obtain ⟨hc5a, hc5b⟩ := abs_le.mp chunkF_approx_5
  obtain ⟨hc6a, hc6b⟩ := abs_le.mp chunkF_approx_6
  obtain ⟨hc7a, hc7b⟩ := abs_le.mp chunkF_approx_7
  obtain ⟨hc8a, hc8b⟩ := abs_le.mp chunkF_approx_8
  obtain ⟨hc9a, hc9b⟩ := abs_le.mp chunkF_approx_9
  obtain ⟨hc10a, hc10b⟩ := abs_le.mp chunkF_approx_10
  obtain ⟨hc11a, hc11b⟩ := abs_le.mp chunkF_approx_11
  obtain ⟨hc12a, hc12b⟩ := abs_le.mp chunkF_approx_12
  obtain ⟨hc13a, hc13b⟩ := abs_le.mp chunkF_approx_13
  obtain ⟨hc14a, hc14b⟩ := abs_le.mp chunkF_approx_14
  obtain ⟨hc15a, hc15b⟩ := abs_le.mp chunkF_approx_15
  obtain ⟨hc16a, hc16b⟩ := abs_le.mp chunkF_approx_16
  obtain ⟨hc17a, hc17b⟩ := abs_le.mp chunkF_approx_17
  obtain ⟨hc18a, hc18b⟩ := abs_le.mp chunkF_approx_18
  obtain ⟨hc19a, hc19b⟩ := abs_le.mp chunkF_approx_19
  obtain ⟨hg0a, hg0b⟩ := abs_le.mp fGridF_approx_0
  obtain ⟨hgta, hgtb⟩ := abs_le.mp fGridF_approx_top
  constructor
  · linarith
  · linarith

theorem stepLowF : 1/1000000 ≤ Metric.kDelta * (fGridF 5000 + fGridF 5001) / 2 := by
  decide!

theorem cdf_top_bounds : 1 ≤ Metric.cdf 10000 ∧ Metric.cdf 10000 ≤ 1 + 1/1000000 := by
  rw [← cdfTopF_eq]
  exact cdfTopF_bounds

theorem cdf_step_low : 1/1000000 ≤ Metric.cdf 5001 - Metric.cdf 5000 := by
  have h : Metric.cdf (5000+1) - Metric.cdf 5000
      = Metric.kDelta * (Metric.fGrid 5000 + Metric.fGrid (5000+1)) / 2 :=
    Metric.cdf_step' 5000
  norm_num at h
  rw [h, ← fGridF_eq_fGrid 5000, ← fGridF_eq_fGrid 5001]
  exact stepLowF

theorem cdf_mid_bounds : 1/2 ≤ Metric.cdf 5000 ∧ Metric.cdf 5000 ≤ 1/2 + 1/2000000 := by
  have h := Metric.two_cdf_mid
  have hb := cdf_top_bounds
  exact ⟨by linarith [hb.1], by linarith [hb.2]⟩

theorem cdf_4999_le : Metric.cdf 4999 ≤ 1 - Metric.cdf 5000 := by
  have hsym := Metric.cdf_sym' 5001 (by norm_num)
  norm_num at hsym
  have hstep := cdf_step_low
  have htop := cdf_top_bounds
  linarith [htop.2]
/-! ## Bucket and evaluate lemmas -/

namespace Metric

theorem kLower_lt_kMean : kLower < kMean := by
  simp only [kLower, kMean, kStdev]
  norm_num

theorem kMean_lt_kUpper : kMean < kUpper := by
  simp only [kUpper, kMean, kStdev]
  norm_num

theorem ten_thousand_delta : (10000:ℚ) * kDelta = kUpper - kLower := by
  simp only [kDelta, kUpper, kLower, kMean, kStdev, kPoints]
  norm_num

theorem five_thousand_delta : (5000:ℚ) * kDelta = kMean - kLower := by
  simp only [kDelta, kUpper, kLower, kMean, kStdev, kPoints]
  norm_num

theorem t_floor_nonneg (x : ℚ) (hx : kLower < x) : 0 ≤ ⌊(x - kLower)/kDelta⌋ :=
  Int.floor_nonneg.mpr (div_nonneg (by linarith) kDelta_pos.le)

theorem t_floor_lt (x : ℚ) (hx : x < kUpper) : ⌊(x - kLower)/kDelta⌋ < 10000 := by
  apply Int.floor_lt.mpr
  push_cast
  rw [div_lt_iff₀ kDelta_pos]
  have h := ten_thousand_delta
  linarith

theorem bucket_le_9999 (x : ℚ) (hx : x < kUpper) : bucket x ≤ 9999 := by
  rw [bucket]
  have h := t_floor_lt x hx
  omega

theorem bucket_cast (x : ℚ) (hx : kLower < x) :
    ((bucket x : ℕ) : ℤ) = ⌊(x - kLower)/kDelta⌋ :=
  Int.toNat_of_nonneg (t_floor_nonneg x hx)

theorem bucket_mono {x y : ℚ} (h : x ≤ y) : bucket x ≤ bucket y := by
  rw [bucket, bucket]
  have hf : ⌊(x - kLower)/kDelta⌋ ≤ ⌊(y - kLower)/kDelta⌋ :=
    Int.floor_le_floor ((div_le_div_iff_of_pos_right kDelta_pos).mpr (by linarith))
  omega

theorem bucket_ge_mid (x : ℚ) (hx : kMean ≤ x) : 5000 ≤ bucket x := by
  rw [bucket]
  have h5 : (5000:ℤ) ≤ ⌊(x - kLower)/kDelta⌋ := by
    apply Int.le_floor.mpr
    push_cast
    rw [le_div_iff₀ kDelta_pos]
    have h := five_thousand_delta
    linarith
  omega

theorem bucket_le_mid (x : ℚ) (hx : x ≤ kMean) : bucket x ≤ 5000 := by
  rw [bucket]
  have hle : (x - kLower)/kDelta ≤ 5000 := by
    rw [div_le_iff₀ kDelta_pos]
    have h := five_thousand_delta
    linarith
  have h5 : ⌊(x - kLower)/kDelta⌋ ≤ 5000 := by
    calc ⌊(x - kLower)/kDelta⌋ ≤ ⌊(5000:ℚ)⌋ := Int.floor_le_floor hle
    _ = 5000 := by norm_num
  omega

theorem evaluate_inside (x : ℚ) (h1 : kLower < x) (h2 : x < kUpper) :
    evaluate x = 2 * min (cdf (bucket x)) (1 - cdf (bucket x)) := by
  rw [evaluate, if_neg]
  push_neg
  exact ⟨h1, h2⟩

theorem evaluate_outside (x : ℚ) (h : x ≤ kLower ∨ kUpper ≤ x) : evaluate x = 0 := by
  rw [evaluate, if_pos h]

end Metric
/-! ## The claims -/

/-- C1: for every input `x`, `evaluate` returns `0` when `x ≤ lower` or
`x ≥ upper` (in particular exactly `0` at both bounds), and otherwise
returns `2 * min(cdf[i], 1 - cdf[i])` at the index
`i = ⌊(x - lower)/delta⌋`, the truncation of the non-negative quantity
`(x - lower)/delta`. -/
theorem claim_C1 (x : ℚ) :
    ((x ≤ Metric.kLower ∨ Metric.kUpper ≤ x) → Metric.evaluate x = 0) ∧
    (Metric.kLower < x → x < Metric.kUpper →
      0 ≤ (x - Metric.kLower) / Metric.kDelta ∧
      Metric.evaluate x =
        2 * min (Metric.cdf ((⌊(x - Metric.kLower) / Metric.kDelta⌋).toNat))
          (1 - Metric.cdf ((⌊(x - Metric.kLower) / Metric.kDelta⌋).toNat))) := by
  constructor
  · exact Metric.evaluate_outside x
  · intro h1 h2
    refine ⟨div_nonneg (by linarith) Metric.kDelta_pos.le, ?_⟩
    rw [Metric.evaluate_inside x h1 h2]
    rfl

/-- Witness for C1: concrete instances at `lower`, `upper` and `mean`. -/
theorem claim_C1_witness :
    Metric.evaluate Metric.kLower = 0 ∧ Metric.evaluate Metric.kUpper = 0 ∧
    (0 ≤ (Metric.kMean - Metric.kLower) / Metric.kDelta ∧
      Metric.evaluate Metric.kMean =
        2 * min (Metric.cdf ((⌊(Metric.kMean - Metric.kLower) / Metric.kDelta⌋).toNat))
          (1 - Metric.cdf ((⌊(Metric.kMean - Metric.kLower) / Metric.kDelta⌋).toNat))) :=
  ⟨(claim_C1 Metric.kLower).1 (Or.inl le_rfl),
   (claim_C1 Metric.kUpper).1 (Or.inr le_rfl),
   (claim_C1 Metric.kMean).2 Metric.kLower_lt_kMean Metric.kMean_lt_kUpper⟩

/-- C2: in the reference configuration, `evaluate(mean)` differs from `1`
by strictly less than `0.001`. -/
theorem claim_C2 : |Metric.evaluate Metric.kMean - 1| < 1/1000 := by
  have hin := Metric.evaluate_inside Metric.kMean Metric.kLower_lt_kMean Metric.kMean_lt_kUpper
  have hb : Metric.bucket Metric.kMean = 5000 := by
    have h1 := Metric.bucket_ge_mid Metric.kMean le_rfl
    have h2 := Metric.bucket_le_mid Metric.kMean le_rfl
    omega
  rw [hin, hb]
  have hm := cdf_mid_bounds
  have hmin : min (Metric.cdf 5000) (1 - Metric.cdf 5000) = 1 - Metric.cdf 5000 :=
    min_eq_right (by linarith [hm.1])
  rw [hmin, abs_lt]
  exact ⟨by linarith [hm.2], by linarith [hm.1]⟩

/-- C3: the running-sum table recurrence agrees entry for entry with the
cumulative trapezoidal sum, for every density and resolution. -/
theorem claim_C3 (f : ℕ → ℚ) (delta : ℚ) (i : ℕ) :
    Confidence.cdf_ f delta i = ∑ j in Finset.range i, delta * (f j + f (j+1)) / 2 :=
  Confidence.cdf_eq_trapezoid f delta i

/-- C4: the table starts at `0`, is non-decreasing, and its final entry is
within `0.01` of `1` in the reference configuration. -/
theorem claim_C4 :
    Metric.cdf 0 = 0 ∧ (∀ i : ℕ, Metric.cdf i ≤ Metric.cdf (i+1)) ∧
    |Metric.cdf Metric.kPoints - 1| ≤ 1/100 := by
  refine ⟨rfl, fun i => Metric.cdf_mono' (Nat.le_succ i), ?_⟩
  have h := cdf_top_bounds
  have hk : Metric.kPoints = 10000 := rfl
  rw [hk, abs_le]
  exact ⟨by linarith [h.1], by linarith [h.2]⟩

/-- C5: `evaluate` always returns a value in `[0, 1]` up to a tiny
undershoot at the bottom (at most `2·10⁻⁶` below `0`, caused by the table
slightly exceeding total mass `1`); the upper bound `1` is exact. -/
theorem claim_C5 (x : ℚ) : -(1/500000) ≤ Metric.evaluate x ∧ Metric.evaluate x ≤ 1 := by
  by_cases hout : x ≤ Metric.kLower ∨ Metric.kUpper ≤ x
  · rw [Metric.evaluate_outside x hout]
    norm_num
  · push_neg at hout
    obtain ⟨h1, h2⟩ := hout
    rw [Metric.evaluate_inside x h1 h2]
    have hc0 : 0 ≤ Metric.cdf (Metric.bucket x) := Metric.cdf_nonneg' _
    have hc1 : Metric.cdf (Metric.bucket x) ≤ Metric.cdf 10000 := by
      apply Metric.cdf_mono'
      have := Metric.bucket_le_9999 x h2
      omega
    have htop := cdf_top_bounds
    constructor
    · have hmin : -(1/1000000) ≤ min (Metric.cdf (Metric.bucket x)) (1 - Metric.cdf (Metric.bucket x)) :=
        le_min (by linarith) (by linarith [htop.2])
      linarith
    · have ha := min_le_left (Metric.cdf (Metric.bucket x)) (1 - Metric.cdf (Metric.bucket x))
      have hb := min_le_right (Metric.cdf (Metric.bucket x)) (1 - Metric.cdf (Metric.bucket x))
      linarith

/-- C8: the exponential primitive sends `0` to exactly `1`, sends `1` to a
value within `10⁻⁵` of `e`, and satisfies `exp(-x) = 1/exp(x)` (exactly, in
the rational idealization). -/
theorem claim_C8 :
    NormalProbabilityDensity.static_exp 0 = 1 ∧
    |((NormalProbabilityDensity.static_exp 1 : ℚ) : ℝ) - Real.exp 1| < 1/100000 ∧
    (∀ x : ℚ, NormalProbabilityDensity.static_exp (-x)
      = 1 / NormalProbabilityDensity.static_exp x) := by
  refine ⟨NormalProbabilityDensity.static_exp_zero, ?_,
    NormalProbabilityDensity.static_exp_neg_eq_inv⟩
  rw [NormalProbabilityDensity.static_exp_one]
  have h1 := Real.exp_one_gt_d9
  have h2 := Real.exp_one_lt_d9
  have he : ((NormalProbabilityDensity.eLit : ℚ) : ℝ) = 2718281828459045 / 10^15 := by
    rw [NormalProbabilityDensity.eLit]
    push_cast
    norm_num
  rw [he, abs_lt]
  norm_num at h1 h2 ⊢
  exact ⟨by linarith, by linarith⟩

/-- C9: both loops terminate by their own exit conditions within the fuel
the embedding provides: the Taylor loop for the fractional part of any
input, and the exponentiation-by-squaring loop for any exponent. -/
theorem claim_C9 :
    (∀ x : ℚ, NormalProbabilityDensity.expSeriesGoO 25 (NormalProbabilityDensity.fraction x) 0 1 1
        = some (NormalProbabilityDensity.seriesSum x)) ∧
    (∀ (x p : ℚ) (n : ℕ), NormalProbabilityDensity.ipowGoO (n+1) x p n
        = some (NormalProbabilityDensity.ipowGo (n+1) x p n)) := by
  constructor
  · intro x
    rw [NormalProbabilityDensity.seriesSum]
    exact NormalProbabilityDensity.expSeriesGoO_total _
      (NormalProbabilityDensity.fraction_nonneg x) (NormalProbabilityDensity.fraction_lt_one x)
  · intro x p n
    exact NormalProbabilityDensity.ipowGoO_eq_some n x p n (Nat.lt_two_pow n)

/-- C10: for inputs strictly inside the bounds, the bucket index is
non-negative (as an integer) and at most `kPoints`, so the lookup stays
within the `kPoints + 1` entries of the table. -/
theorem claim_C10 (x : ℚ) (h1 : Metric.kLower < x) (h2 : x < Metric.kUpper) :
    0 ≤ ⌊(x - Metric.kLower)/Metric.kDelta⌋ ∧
    Metric.bucket x ≤ Metric.kPoints ∧ Metric.bucket x < Metric.kPoints + 1 := by
  have ha := Metric.t_floor_nonneg x h1
  have hb := Metric.bucket_le_9999 x h2
  have hk : Metric.kPoints = 10000 := rfl
  refine ⟨ha, ?_, ?_⟩ <;> rw [hk] <;> omega

/-- Witness for C10 at `x = mean`. -/
theorem claim_C10_witness :
    0 ≤ ⌊(Metric.kMean - Metric.kLower)/Metric.kDelta⌋ ∧
    Metric.bucket Metric.kMean ≤ Metric.kPoints ∧
    Metric.bucket Metric.kMean < Metric.kPoints + 1 :=
  claim_C10 Metric.kMean Metric.kLower_lt_kMean Metric.kMean_lt_kUpper
/-- C6: on `[mean, upper)` the confidence is non-increasing, and on
`(lower, mean]` it is non-decreasing. -/
theorem claim_C6 :
    (∀ x1 x2 : ℚ, Metric.kMean ≤ x1 → x1 < x2 → x2 < Metric.kUpper →
      Metric.evaluate x2 ≤ Metric.evaluate x1) ∧
    (∀ x1 x2 : ℚ, Metric.kLower < x1 → x1 < x2 → x2 ≤ Metric.kMean →
      Metric.evaluate x1 ≤ Metric.evaluate x2) := by
  have hm := cdf_mid_bounds
  constructor
  · intro x1 x2 hm1 h12 h2u
    have h1l : Metric.kLower < x1 := lt_of_lt_of_le Metric.kLower_lt_kMean hm1
    have h1u : x1 < Metric.kUpper := lt_trans h12 h2u
    have h2l : Metric.kLower < x2 := lt_trans h1l h12
    rw [Metric.evaluate_inside x1 h1l h1u, Metric.evaluate_inside x2 h2l h2u]
    have hi12 : Metric.bucket x1 ≤ Metric.bucket x2 := Metric.bucket_mono h12.le
    have hi1g : 5000 ≤ Metric.bucket x1 := Metric.bucket_ge_mid x1 hm1
    have hc1g : 1/2 ≤ Metric.cdf (Metric.bucket x1) :=
      le_trans hm.1 (Metric.cdf_mono' hi1g)
    have hc2g : 1/2 ≤ Metric.cdf (Metric.bucket x2) :=
      le_trans hc1g (Metric.cdf_mono' hi12)
    have hmin1 : min (Metric.cdf (Metric.bucket x1)) (1 - Metric.cdf (Metric.bucket x1))
        = 1 - Metric.cdf (Metric.bucket x1) := min_eq_right (by linarith)
    have hmin2 : min (Metric.cdf (Metric.bucket x2)) (1 - Metric.cdf (Metric.bucket x2))
        = 1 - Metric.cdf (Metric.bucket x2) := min_eq_right (by linarith)
    rw [hmin1, hmin2]
    have := Metric.cdf_mono' hi12
    linarith
  · intro x1 x2 h1l h12 h2m
    have h2u : x2 < Metric.kUpper := lt_of_le_of_lt h2m Metric.kMean_lt_kUpper
    have h1u : x1 < Metric.kUpper := lt_trans h12 h2u
    have h2l : Metric.kLower < x2 := lt_trans h1l h12
    rw [Metric.evaluate_inside x1 h1l h1u, Metric.evaluate_inside x2 h2l h2u]
    have hi12 : Metric.bucket x1 ≤ Metric.bucket x2 := Metric.bucket_mono h12.le
    have hi2le : Metric.bucket x2 ≤ 5000 := Metric.bucket_le_mid x2 h2m
    have h4999 := cdf_4999_le
    have hc12 : Metric.cdf (Metric.bucket x1) ≤ Metric.cdf (Metric.bucket x2) :=
      Metric.cdf_mono' hi12
    rcases Nat.lt_or_ge (Metric.bucket x2) 5000 with hi2lt | hi2ge
    · have hc2 : Metric.cdf (Metric.bucket x2) ≤ Metric.cdf 4999 :=
        Metric.cdf_mono' (by omega)
      have hmin2 : min (Metric.cdf (Metric.bucket x2)) (1 - Metric.cdf (Metric.bucket x2))
          = Metric.cdf (Metric.bucket x2) := min_eq_left (by linarith [hm.1])
      have h := min_le_left (Metric.cdf (Metric.bucket x1)) (1 - Metric.cdf (Metric.bucket x1))
      rw [hmin2]
      linarith
    · have hi2eq : Metric.bucket x2 = 5000 := by omega
      rcases Nat.lt_or_ge (Metric.bucket x1) 5000 with hi1lt | hi1ge
      · have hc1 : Metric.cdf (Metric.bucket x1) ≤ Metric.cdf 4999 :=
          Metric.cdf_mono' (by omega)
        have hmin2 : min (Metric.cdf (Metric.bucket x2)) (1 - Metric.cdf (Metric.bucket x2))
            = 1 - Metric.cdf (Metric.bucket x2) := by
          rw [hi2eq]
          exact min_eq_right (by linarith [hm.1])
        have h := min_le_left (Metric.cdf (Metric.bucket x1)) (1 - Metric.cdf (Metric.bucket x1))
        rw [hmin2, hi2eq]
        linarith
      · have hi1eq : Metric.bucket x1 = 5000 := by omega
        rw [hi1eq, hi2eq]

/-- Witness for C6: concrete monotonicity instances on both sides of the
mean. -/
theorem claim_C6_witness :
    Metric.evaluate (Metric.kMean + 1/100) ≤ Metric.evaluate Metric.kMean ∧
    Metric.evaluate (Metric.kMean - 1/100) ≤ Metric.evaluate Metric.kMean :=
  ⟨claim_C6.1 Metric.kMean (Metric.kMean + 1/100) le_rfl (by norm_num)
      (by simp only [Metric.kUpper, Metric.kMean, Metric.kStdev]; norm_num),
   claim_C6.2 (Metric.kMean - 1/100) Metric.kMean
      (by simp only [Metric.kLower, Metric.kMean, Metric.kStdev]; norm_num)
      (by norm_num) le_rfl⟩

/-- C7: for `x` within the bounds, the confidence at `x` and at the
reflected point `2*mean - x` agree up to `0.001` (one table step plus the
deviation of the total mass from `1`). -/
theorem claim_C7 (x : ℚ) (h1 : Metric.kLower < x) (h2 : x < Metric.kUpper) :
    |Metric.evaluate x - Metric.evaluate (2 * Metric.kMean - x)| ≤ 1/1000 := by
  have hup : 2 * Metric.kMean - Metric.kLower = Metric.kUpper := by
    simp only [Metric.kLower, Metric.kUpper, Metric.kMean, Metric.kStdev]
    norm_num
  have h1' : Metric.kLower < 2 * Metric.kMean - x := by linarith
  have h2' : 2 * Metric.kMean - x < Metric.kUpper := by linarith
  rw [Metric.evaluate_inside x h1 h2, Metric.evaluate_inside _ h1' h2']
  have hδ := Metric.kDelta_pos
  have h10 := Metric.ten_thousand_delta
  have ht' : (2 * Metric.kMean - x - Metric.kLower)/Metric.kDelta
      = 10000 - (x - Metric.kLower)/Metric.kDelta := by
    field_simp
    linarith
  have htpos : 0 < (x - Metric.kLower)/Metric.kDelta := div_pos (by linarith) hδ
  have htlt : (x - Metric.kLower)/Metric.kDelta < 10000 := by
    rw [div_lt_iff₀ hδ]
    linarith
  have hceil_nonneg : 0 ≤ ⌈(x - Metric.kLower)/Metric.kDelta⌉ := Int.ceil_nonneg htpos.le
  have hkZ : ((⌈(x - Metric.kLower)/Metric.kDelta⌉.toNat : ℕ) : ℤ)
      = ⌈(x - Metric.kLower)/Metric.kDelta⌉ := Int.toNat_of_nonneg hceil_nonneg
  have hiZ : ((Metric.bucket x : ℕ) : ℤ) = ⌊(x - Metric.kLower)/Metric.kDelta⌋ :=
    Metric.bucket_cast x h1
  have hk10000 : ⌈(x - Metric.kLower)/Metric.kDelta⌉.toNat ≤ 10000 := by
    have h : ⌈(x - Metric.kLower)/Metric.kDelta⌉ ≤ 10000 :=
      Int.ceil_le.mpr (by push_cast; linarith)
    omega
  have hik : Metric.bucket x ≤ ⌈(x - Metric.kLower)/Metric.kDelta⌉.toNat := by
    have := Int.floor_le_ceil ((x - Metric.kLower)/Metric.kDelta)
    omega
  have hki : ⌈(x - Metric.kLower)/Metric.kDelta⌉.toNat ≤ Metric.bucket x + 1 := by
    have := Int.ceil_le_floor_add_one ((x - Metric.kLower)/Metric.kDelta)
    omega
  have hbuck' : Metric.bucket (2 * Metric.kMean - x)
      = 10000 - ⌈(x - Metric.kLower)/Metric.kDelta⌉.toNat := by
    rw [Metric.bucket, ht']
    have hfl : ⌊(10000:ℚ) - (x - Metric.kLower)/Metric.kDelta⌋
        = 10000 - ⌈(x - Metric.kLower)/Metric.kDelta⌉ := by
      rw [show (10000:ℚ) - (x - Metric.kLower)/Metric.kDelta
          = -((x - Metric.kLower)/Metric.kDelta) + ((10000:ℤ):ℚ) by push_cast; ring]
      rw [Int.floor_add_int, Int.floor_neg]
      ring
    rw [hfl]
    omega
  rw [hbuck']
  have hsymk := Metric.cdf_sym' _ hk10000
  have hckval : Metric.cdf (10000 - ⌈(x - Metric.kLower)/Metric.kDelta⌉.toNat)
      = Metric.cdf 10000 - Metric.cdf ⌈(x - Metric.kLower)/Metric.kDelta⌉.toNat := by
    linarith [hsymk]
  rw [hckval]
  have hcik : Metric.cdf (Metric.bucket x) ≤ Metric.cdf ⌈(x - Metric.kLower)/Metric.kDelta⌉.toNat :=
    Metric.cdf_mono' hik
  have hstep : Metric.cdf ⌈(x - Metric.kLower)/Metric.kDelta⌉.toNat
      ≤ Metric.cdf (Metric.bucket x) + Metric.kDelta * ((10:ℚ)^14/6517233514038) := by
    have hck := Metric.cdf_mono' hki
    have hstep' := Metric.cdf_step' (Metric.bucket x)
    have hf1 := Metric.fGrid_le_bound (Metric.bucket x)
    have hf2 := Metric.fGrid_le_bound (Metric.bucket x + 1)
    nlinarith [hδ.le]
  have htop := cdf_top_bounds
  have hnum : 2 * (Metric.kDelta * ((10:ℚ)^14/6517233514038) + 1/1000000) ≤ 1/1000 := by
    simp only [Metric.kDelta, Metric.kUpper, Metric.kLower, Metric.kMean, Metric.kStdev,
      Metric.kPoints]
    norm_num
  set ci := Metric.cdf (Metric.bucket x)
  set ck := Metric.cdf ⌈(x - Metric.kLower)/Metric.kDelta⌉.toNat
  set ctop := Metric.cdf 10000
  set S := Metric.kDelta * ((10:ℚ)^14/6517233514038) with hS
  have hS0 : 0 ≤ S := by
    rw [hS]
    positivity
  have hm2lb : min (ctop - ck) (1 - (ctop - ck)) ≥ min ci (1 - ci) - (S + 1/1000000) := by
    apply le_min
    · have := min_le_right ci (1 - ci)
      linarith [htop.1]
    · have := min_le_left ci (1 - ci)
      linarith [htop.2]
  have hm2ub : min (ctop - ck) (1 - (ctop - ck)) ≤ min ci (1 - ci) + (S + 1/1000000) := by
    have ha := min_le_left (ctop - ck) (1 - (ctop - ck))
    have hb := min_le_right (ctop - ck) (1 - (ctop - ck))
    have hccc : min ci (1 - ci) ≥ min (ctop - ck) (1 - (ctop - ck)) - (S + 1/1000000) := by
      apply le_min
      · linarith [htop.2]
      · linarith [htop.1]
    linarith
  rw [abs_le]
  constructor
  · linarith [hm2ub]
  · linarith [hm2lb]

/-- Witness for C7 at a concrete interior point. -/
theorem claim_C7_witness :
    |Metric.evaluate (Metric.kMean + 1/100)
      - Metric.evaluate (2 * Metric.kMean - (Metric.kMean + 1/100))| ≤ 1/1000 :=
  claim_C7 (Metric.kMean + 1/100)
    (by simp only [Metric.kLower, Metric.kMean, Metric.kStdev]; norm_num)
    (by simp only [Metric.kUpper, Metric.kMean, Metric.kStdev]; norm_num)
